import Mathlib

/-
Verification of the target-bigquery ingestion engine (src/target_bigquery.py)
against its natural-language specification.

Shallow embedding conventions:
- A JSON-Schema fragment is modelled by the JSchema inductive: only the keys
  the source reads (type, anyOf, properties, items, format) are represented.
  The value of a type key is either a string or a list of strings (TypeVal).
- Python exceptions (KeyError, IndexError, AttributeError, raised protocol
  errors, a raising load-job result, the logging TypeError in the streaming
  end loop) are modelled as Option/Except failures.
- Record payloads and checkpoint (state) values are opaque strings; the
  serialized form written to the per-stream spool is the payload itself.
- Python dicts keyed by stream name are association lists with
  insertion-order-preserving update (upsert), matching dict iteration order.
- External collaborators are oracles passed as parameters: validateFn models
  jsonschema.validate (true = valid), loadOk models whether a load job
  reaches a successful terminal status (result() raises on failure),
  insertErrs models insert_rows_json returning a per-row error list.
- Warehouse I/O and checkpoint emission are recorded as an event trace.
-/

namespace TB

/-- Value of a type key in a JSON-Schema fragment: a single string or a
list of strings. -/
inductive TypeVal where
  | s (v : String)
  | l (v : List String)
deriving DecidableEq, Repr

/-- A JSON-Schema fragment, restricted to the keys the source reads.
A missing key is none (or the empty list for anyOf). -/
inductive JSchema where
  | mk (type : Option TypeVal) (anyOf : List JSchema)
       (properties : Option (List (String × JSchema)))
       (items : Option JSchema)
       (format : Option String)

def JSchema.type : JSchema → Option TypeVal
  | .mk t _ _ _ _ => t

def JSchema.anyOf : JSchema → List JSchema
  | .mk _ a _ _ _ => a

def JSchema.properties : JSchema → Option (List (String × JSchema))
  | .mk _ _ p _ _ => p

def JSchema.items : JSchema → Option JSchema
  | .mk _ _ _ i _ => i

def JSchema.format : JSchema → Option String
  | .mk _ _ _ _ f => f

/-- A fragment that corresponds to an empty Python dict (falsy), which
build_schema skips. -/
def JSchema.falsy : JSchema → Bool
  | .mk none [] none none none => true
  | _ => false

/-- The translated column definition: the tuple returned by define_schema,
which build_schema wraps into a SchemaField. The type slot is an Option
because the source can store Python None there (items without a type key
in the array branch). -/
inductive SchemaFieldDef where
  | mk (name : String) (type : Option TypeVal) (mode : String)
       (description : Option String) (fields : List SchemaFieldDef)

def SchemaFieldDef.name : SchemaFieldDef → String
  | .mk n _ _ _ _ => n

def SchemaFieldDef.type : SchemaFieldDef → Option TypeVal
  | .mk _ t _ _ _ => t

def SchemaFieldDef.mode : SchemaFieldDef → String
  | .mk _ _ m _ _ => m

def SchemaFieldDef.fields : SchemaFieldDef → List SchemaFieldDef
  | .mk _ _ _ _ fs => fs

/-- The anyOf selection loop of define_schema: when the fragment has no
direct type key, iterate over the anyOf alternatives; a null alternative
re-asserts the NULLABLE default (a no-op on the mode), any other
alternative replaces the working fragment. An alternative without a type
key raises (KeyError), modelled as none. When the fragment has a direct
type the loop is skipped. -/
def anyOfSelect (field0 : JSchema) : Option JSchema :=
  match field0.type with
  | some _ => some field0
  | none =>
    field0.anyOf.foldl
      (fun acc alt =>
        acc.bind fun f =>
          match alt.type with
          | none => none
          | some t => if t = TypeVal.s "null" then some f else some alt)
      (some field0)

/-- The part of define_schema after the mode and the effective scalar type
have been computed from the type key: the object branch, the array branch
(reading items), the date-time and number rewrites. -/
def defineSchemaTail (build : JSchema → Option (List SchemaFieldDef))
    (field : JSchema) (name mode1 st1 : String) : Option SchemaFieldDef :=
  if st1 = "object" then
    match build field with
    | none => none
    | some fs =>
      some (SchemaFieldDef.mk name (some (TypeVal.s "RECORD")) mode1 none fs)
  else if st1 = "array" then
    match field.items with
    | none => none
    | some it =>
      match it.type with
      | some (TypeVal.s "object") =>
        match build it with
        | none => none
        | some fs =>
          some (SchemaFieldDef.mk name (some (TypeVal.s "RECORD")) "REPEATED" none fs)
      | st2 =>
        let st3 : Option TypeVal :=
          if st2 = some (TypeVal.s "string") ∧ field.format = some "date-time" then
            some (TypeVal.s "timestamp")
          else if st2 = some (TypeVal.s "number") then some (TypeVal.s "FLOAT")
          else st2
        some (SchemaFieldDef.mk name st3 "REPEATED" none [])
  else
    let st3 : String :=
      if st1 = "string" ∧ field.format = some "date-time" then "timestamp"
      else if st1 = "number" then "FLOAT"
      else st1
    some (SchemaFieldDef.mk name (some (TypeVal.s st3)) mode1 none [])

/-- define_schema from the source, with an explicit recursion fuel (the
recursion of the source is bounded by schema nesting depth; fuel 0 is
returned as a failure). The inner build closure is the body of
build_schema, inlined so the recursion is structural on the fuel. -/
def defineSchema : Nat → JSchema → String → Option SchemaFieldDef
  | 0, _, _ => none
  | Nat.succ fuel, field0, name =>
    let build : JSchema → Option (List SchemaFieldDef) := fun sch =>
      match sch.properties with
      | none => none
      | some props =>
        props.foldl
          (fun acc kv =>
            acc.bind fun out =>
              if kv.2.falsy then some out
              else (defineSchema fuel kv.2 kv.1).map fun sf => out ++ [sf])
          (some [])
    match anyOfSelect field0 with
    | none => none
    | some field =>
      match field.type with
      | none => none
      | some (TypeVal.l []) => none
      | some (TypeVal.l (t0 :: rest)) =>
        defineSchemaTail build field name
          (if t0 = "null" then "NULLABLE" else "required")
          ((t0 :: rest).getLastD "")
      | some (TypeVal.s x) =>
        defineSchemaTail build field name "NULLABLE" x

/-- build_schema from the source: translate every property of the object,
skipping falsy (empty) fragments, preserving property order. -/
def buildSchema (fuel : Nat) (schema : JSchema) : Option (List SchemaFieldDef) :=
  match schema.properties with
  | none => none
  | some props =>
    props.foldl
      (fun acc kv =>
        acc.bind fun out =>
          if kv.2.falsy then some out
          else (defineSchema fuel kv.2 kv.1).map fun sf => out ++ [sf])
      (some [])

/-- A checkpoint (state) value, opaque to the engine. -/
abbrev SVal := String

/-- A parsed singer protocol message. Record payloads are opaque strings,
standing for the serialized record. The unknownMsg constructor stands for
a parsed message of an unrecognized class. -/
inductive Msg where
  | schemaMsg (stream : String) (schema : JSchema) (keyProperties : List String)
  | recordMsg (stream : String) (record : String)
  | stateMsg (value : SVal)
  | activateVersionMsg
  | unknownMsg

/-- The load-job configuration assembled by persist_lines_job for one
stream. -/
structure LoadConfig where
  source_format : String
  ignore_unknown_values : Bool
  autodetect : Bool
  schema : Option (List SchemaFieldDef)
  schema_update_options : List String
  write_truncate : Bool

/-- Observable effects: warehouse I/O and checkpoint emission, in order. -/
inductive Event where
  | createDataset
  | createTable (table : String)
  | insertRows (table : String) (record : String) (errs : List String)
  | loadJob (table : String) (payload : List String) (config : LoadConfig)
  | logJobId (table : String)
  | emitState (value : SVal)

/-- Exceptions the engine can raise. -/
inductive Err where
  | recordBeforeSchema (stream : String)
  | validationError (stream : String) (record : String)
  | unrecognizedMessage
  | keyError (stream : String)
  | buildSchemaError (stream : String)
  | loadJobFailure (table : String)
  | loggingTypeError
deriving DecidableEq

/-- Association-list lookup, modelling Python dict access. -/
def dlookup {α : Type} : List (String × α) → String → Option α
  | [], _ => none
  | (k, v) :: rest, key => if k = key then some v else dlookup rest key

/-- Association-list update, modelling Python dict assignment: an existing
key keeps its (insertion-order) position, a new key is appended. -/
def upsert {α : Type} : List (String × α) → String → α → List (String × α)
  | [], key, v => [(key, v)]
  | (k, w) :: rest, key, v =>
    if k = key then (key, v) :: rest else (k, w) :: upsert rest key v

/-- emit_state from the source: a None state writes nothing, otherwise one
line on standard output. -/
def emitStateEvents : Option SVal → List Event
  | none => []
  | some v => [Event.emitState v]

/-- Parameters of persist_lines_job, including the external oracles:
validateFn models jsonschema.validate (true = the record validates) and
loadOk models the terminal status of the load job of a table (false makes
the blocking result call raise). -/
structure JobParams where
  truncate : Bool
  validate_records : Bool
  allow_schema_update : Bool
  ignore_unknown_fields : Bool
  autodetect_schema : Bool
  validateFn : String → JSchema → Bool
  loadOk : String → Bool
  fuel : Nat

/-- The mutable state of the persist_lines_job message loop. The rows dict
holds, per stream, the records written to its temporary spool file. -/
structure JobState where
  state : Option SVal
  schemas : List (String × JSchema)
  key_properties : List (String × List String)
  rows : List (String × List String)
  errors : List (String × Option (List String))

def initJobState : JobState := ⟨none, [], [], [], []⟩

/-- One iteration of the persist_lines_job message loop. -/
def jobStep (p : JobParams) (st : JobState) (msg : Msg) : Except Err JobState :=
  match msg with
  | .recordMsg s r =>
    match dlookup st.schemas s with
    | none => .error (.recordBeforeSchema s)
    | some sch =>
      if p.validate_records && !(p.validateFn r sch) then
        .error (.validationError s r)
      else
        match dlookup st.rows s with
        | none => .error (.keyError s)
        | some buf =>
          .ok { st with rows := upsert st.rows s (buf ++ [r]), state := none }
  | .stateMsg v => .ok { st with state := some v }
  | .schemaMsg s sch kp =>
    .ok { st with schemas := upsert st.schemas s sch,
                  key_properties := upsert st.key_properties s kp,
                  rows := upsert st.rows s [],
                  errors := upsert st.errors s none }
  | .activateVersionMsg => .ok st
  | .unknownMsg => .error .unrecognizedMessage

/-- The persist_lines_job message loop over the whole input. -/
def processJob (p : JobParams) : JobState → List Msg → Except Err JobState
  | st, [] => .ok st
  | st, m :: rest =>
    match jobStep p st m with
    | .error e => .error e
    | .ok st' => processJob p st' rest

/-- The schema put into the load configuration: with autodetect the
explicit schema stays unset, otherwise it is built from the registered
stream schema; a lookup or build failure raises. The outer Option is the
exception, the inner one the config slot. -/
def jobLoadSchema (p : JobParams) (schemas : List (String × JSchema))
    (table : String) : Option (Option (List SchemaFieldDef)) :=
  if p.autodetect_schema then some none
  else (dlookup schemas table).bind fun sch => (buildSchema p.fuel sch).map some

/-- The post-loop phase of persist_lines_job: one load job per stream with
a non-empty spool, in dict insertion order; the blocking result call
raises on a failed terminal status, which aborts the remaining loads. -/
def runLoads (p : JobParams) (schemas : List (String × JSchema)) :
    List (String × List String) → List Event × Except Err Unit
  | [] => ([], .ok ())
  | (table, buf) :: rest =>
    if buf.isEmpty then runLoads p schemas rest
    else
      match jobLoadSchema p schemas table with
      | none => ([], .error (.buildSchemaError table))
      | some schemaSlot =>
        let cfg : LoadConfig :=
          ⟨"NEWLINE_DELIMITED_JSON", p.ignore_unknown_fields,
           p.autodetect_schema, schemaSlot,
           (if p.allow_schema_update then
              ["ALLOW_FIELD_ADDITION", "ALLOW_FIELD_RELAXATION"]
            else []),
           p.truncate⟩
        let evs := [Event.loadJob table buf cfg, Event.logJobId table]
        if p.loadOk table then
          match runLoads p schemas rest with
          | (evs2, r) => (evs ++ evs2, r)
        else (evs, .error (.loadJobFailure table))

/-- persist_lines_job: the message loop, then the per-stream load jobs; it
returns the last pending state on success. -/
def persistLinesJob (p : JobParams) (msgs : List Msg) :
    List Event × Except Err (Option SVal) :=
  match processJob p initJobState msgs with
  | .error e => ([], .error e)
  | .ok st =>
    match runLoads p st.schemas st.rows with
    | (evs, .error e) => (evs, .error e)
    | (evs, .ok ()) => (evs, .ok st.state)

/-- main with stream_data false: run persist_lines_job, then emit the
returned state once. -/
def mainJob (p : JobParams) (msgs : List Msg) :
    List Event × Except Err (Option SVal) :=
  match persistLinesJob p msgs with
  | (evs, .error e) => (evs, .error e)
  | (evs, .ok st) => (evs ++ emitStateEvents st, .ok st)

/-- Parameters of persist_lines_stream; insertErrs models the per-row
error list returned by insert_rows_json for a given table and record
(empty = success). -/
structure StreamParams where
  validate_records : Bool
  allow_schema_update : Bool
  validateFn : String → JSchema → Bool
  insertErrs : String → String → List String
  fuel : Nat

/-- The mutable state of the persist_lines_stream message loop: tables
holds the created table handles, rows the per-stream row counts, errors
the result of the most recent insert of each stream (none = Python None,
set at schema registration). -/
structure StreamState where
  state : Option SVal
  schemas : List (String × JSchema)
  key_properties : List (String × List String)
  tables : List (String × Unit)
  rows : List (String × Nat)
  errors : List (String × Option (List String))

def initStreamState : StreamState := ⟨none, [], [], [], [], []⟩

/-- One iteration of the persist_lines_stream message loop, returning the
events it performs. -/
def streamStep (p : StreamParams) (st : StreamState) (msg : Msg) :
    List Event × Except Err StreamState :=
  match msg with
  | .recordMsg s r =>
    match dlookup st.schemas s with
    | none => ([], .error (.recordBeforeSchema s))
    | some sch =>
      if p.validate_records && !(p.validateFn r sch) then
        ([], .error (.validationError s r))
      else
        match dlookup st.tables s, dlookup st.rows s with
        | some _, some n =>
          let errs := p.insertErrs s r
          ([Event.insertRows s r errs],
           .ok { st with errors := upsert st.errors s (some errs),
                         rows := upsert st.rows s (n + 1),
                         state := none })
        | _, _ => ([], .error (.keyError s))
  | .stateMsg v => ([], .ok { st with state := some v })
  | .schemaMsg s sch kp =>
    match buildSchema p.fuel sch with
    | none => ([], .error (.buildSchemaError s))
    | some _ =>
      ([Event.createTable s],
       .ok { st with schemas := upsert st.schemas s sch,
                     key_properties := upsert st.key_properties s kp,
                     tables := upsert st.tables s (),
                     rows := upsert st.rows s 0,
                     errors := upsert st.errors s none })
  | .activateVersionMsg => ([], .ok st)
  | .unknownMsg => ([], .error .unrecognizedMessage)

/-- The persist_lines_stream message loop over the whole input, with its
accumulated event trace. -/
def streamLoop (p : StreamParams) : StreamState → List Msg →
    List Event × Except Err StreamState
  | st, [] => ([], .ok st)
  | st, m :: rest =>
    match streamStep p st m with
    | (evs, .error e) => (evs, .error e)
    | (evs, .ok st') =>
      match streamLoop p st' rest with
      | (evs2, r2) => (evs ++ evs2, r2)

/-- Python falsiness of an errors-dict entry: None and the empty list are
falsy, a non-empty error list is truthy. -/
def entryFalsy : Option (List String) → Bool
  | none => true
  | some l => l.isEmpty

/-- The end-of-run loop of persist_lines_stream over the errors dict: a
falsy entry logs and emits the pending state; a truthy entry calls
logging.error with a sep keyword argument, which raises TypeError and
aborts the loop. -/
def streamEndLoop (state : Option SVal) :
    List (String × Option (List String)) → List Event × Except Err Unit
  | [] => ([], .ok ())
  | (_, e) :: rest =>
    if entryFalsy e then
      match streamEndLoop state rest with
      | (evs, r) => (emitStateEvents state ++ evs, r)
    else ([], .error .loggingTypeError)

/-- persist_lines_stream: dataset creation, the message loop, the
end-of-run loop; exposes the full final loop state on success. -/
def persistLinesStreamFull (p : StreamParams) (msgs : List Msg) :
    List Event × Except Err StreamState :=
  match streamLoop p initStreamState msgs with
  | (evs, .error e) => (Event.createDataset :: evs, .error e)
  | (evs, .ok st) =>
    match streamEndLoop st.state st.errors with
    | (evs2, .error e) => (Event.createDataset :: (evs ++ evs2), .error e)
    | (evs2, .ok ()) => (Event.createDataset :: (evs ++ evs2), .ok st)

/-- persist_lines_stream as in the source: it returns only the state. -/
def persistLinesStream (p : StreamParams) (msgs : List Msg) :
    List Event × Except Err (Option SVal) :=
  match persistLinesStreamFull p msgs with
  | (evs, r) => (evs, r.map StreamState.state)

/-- main with stream_data true: run persist_lines_stream, then emit the
returned state once more. -/
def mainStream (p : StreamParams) (msgs : List Msg) :
    List Event × Except Err (Option SVal) :=
  match persistLinesStream p msgs with
  | (evs, .error e) => (evs, .error e)
  | (evs, .ok st) => (evs ++ emitStateEvents st, .ok st)

/-- Whether an Except value is a success. -/
def exOk {ε α : Type} : Except ε α → Bool
  | .ok _ => true
  | .error _ => false

/-- Whether an event is a checkpoint emission. -/
def isEmitEv : Event → Bool
  | .emitState _ => true
  | _ => false

/-- Whether an event is a row insert. -/
def isInsertEv : Event → Bool
  | .insertRows _ _ _ => true
  | _ => false

/-- Whether an event is the creation of the table of the given stream. -/
def isCreateFor (s : String) : Event → Bool
  | .createTable t => t = s
  | _ => false

/-- Number of table creations for the given stream in a trace. -/
def countCreate (s : String) (evs : List Event) : Nat :=
  (evs.filter (isCreateFor s)).length

/-- Whether a message is a SCHEMA message for the given stream. -/
def isSchemaFor (s : String) : Msg → Bool
  | .schemaMsg t _ _ => t = s
  | _ => false

/-- Number of SCHEMA messages for the given stream in an input. -/
def countSchemaFor (s : String) (msgs : List Msg) : Nat :=
  (msgs.filter (isSchemaFor s)).length

/-- An alternative of an anyOf list that is not the null alternative. -/
def nonNullAlt (alt : JSchema) : Bool :=
  if alt.type = some (TypeVal.s "null") then false else true

/-- Checks that a successful batch record step left no pending state. -/
def okStateCleared (r : Except Err JobState) : Bool :=
  match r with
  | .ok st => st.state.isNone
  | .error _ => true

/-- Checks that a successful streaming record step left no pending state. -/
def okStateClearedS (r : Except Err StreamState) : Bool :=
  match r with
  | .ok st => st.state.isNone
  | .error _ => true

/- Concrete fixtures used by the counterexamples and witnesses. -/

/-- A validator that accepts every record. -/
def vfTrue : String → JSchema → Bool := fun _ _ => true

/-- The fragment with type string. -/
def strField : JSchema := JSchema.mk (some (TypeVal.s "string")) [] none none none

/-- The fragment with type integer. -/
def intField : JSchema := JSchema.mk (some (TypeVal.s "integer")) [] none none none

/-- The fragment with type null. -/
def nullField : JSchema := JSchema.mk (some (TypeVal.s "null")) [] none none none

/-- A stream schema with a single string property named a. -/
def simpleSchema : JSchema := JSchema.mk none [] (some [("a", strField)]) none none

/-- Batch parameters: validate on, every warehouse call succeeds. -/
def jobP : JobParams := ⟨false, true, false, false, false, vfTrue, fun _ => true, 2⟩

/-- Batch parameters where the load job of stream a fails. -/
def jobPfailA : JobParams := ⟨false, true, false, false, false, vfTrue, fun t => t != "a", 2⟩

/-- Streaming parameters: validate on, every insert succeeds. -/
def streamP : StreamParams := ⟨true, false, vfTrue, fun _ _ => [], 2⟩

/-- Streaming parameters where the insert of record r1 fails. -/
def streamPfailR1 : StreamParams :=
  ⟨true, false, vfTrue, fun _ r => if r = "r1" then ["insert error"] else [], 2⟩

/-- The load configuration built for a stream of simpleSchema under jobP
or jobPfailA. -/
def simpleCfg : LoadConfig :=
  ⟨"NEWLINE_DELIMITED_JSON", false, false,
   some [SchemaFieldDef.mk "a" (some (TypeVal.s "string")) "NULLABLE" none []],
   [], false⟩

/-- C2 input: a second SCHEMA message for stream s after a buffered
record. -/
def msgsC2 : List Msg :=
  [Msg.schemaMsg "s" simpleSchema [], Msg.recordMsg "s" "r1",
   Msg.schemaMsg "s" simpleSchema []]

/-- C3 input: SCHEMA(s1), RECORD(s1, r1), RECORD(s1, r2), STATE(v1). -/
def msgsC3 : List Msg :=
  [Msg.schemaMsg "s1" simpleSchema [], Msg.recordMsg "s1" "r1",
   Msg.recordMsg "s1" "r2", Msg.stateMsg "v1"]

/-- C5 input: two streams, each with one record; the load of stream a
(registered first) fails under jobPfailA. -/
def msgsC5 : List Msg :=
  [Msg.schemaMsg "a" simpleSchema [], Msg.recordMsg "a" "ra",
   Msg.schemaMsg "b" simpleSchema [], Msg.recordMsg "b" "rb"]

/-- C6 input: a failing insert for r1, a succeeding insert for r2, then a
STATE message. -/
def msgsC6 : List Msg :=
  [Msg.schemaMsg "s" simpleSchema [], Msg.recordMsg "s" "r1",
   Msg.recordMsg "s" "r2", Msg.stateMsg "v"]

/-- C10 input: two streams, one record, then a STATE message. -/
def msgsC10 : List Msg :=
  [Msg.schemaMsg "a" simpleSchema [], Msg.schemaMsg "b" simpleSchema [],
   Msg.recordMsg "a" "ra", Msg.stateMsg "v"]

/-- C9 input: a single stream that receives a SCHEMA message and no
RECORD message. -/
def msgsC9 : List Msg := [Msg.schemaMsg "s" simpleSchema []]

/-- The fragment of C1: a type list in which null is present but not
first. -/
def fieldC1 : JSchema :=
  JSchema.mk (some (TypeVal.l ["integer", "null", "string"])) [] none none none

/-- The fragment of C7: no direct type, two non-null anyOf alternatives
(string first, integer last). -/
def fieldC7 : JSchema := JSchema.mk none [strField, intField] none none none

/-- C1 counterexample: for the type list [integer, null, string], null
appears in the list but is not its first element, and define_schema
produces the mode required (the lowercase literal), not NULLABLE as the
claim states. -/
theorem c1_counterexample :
    (defineSchema 1 fieldC1 "f").map SchemaFieldDef.mode = some "required" ∧
    "null" ∈ ["integer", "null", "string"] ∧ "required" ≠ "NULLABLE" :=
  ⟨rfl, by decide, by decide⟩

/-- C2 counterexample: in batch mode, for SCHEMA(s), RECORD(s, r1),
SCHEMA(s), the run ends with an empty trace: no load job is submitted at
all, so the buffered record r1 under the old schema is discarded, not
retained and loaded against the new schema definition as the claim
states. -/
theorem c2_counterexample : mainJob jobP msgsC2 = ([], Except.ok none) := rfl

/-- C3: for SCHEMA(s1), RECORD(s1, r1), RECORD(s1, r2), STATE(v1) in batch
mode with every warehouse call succeeding, the whole observable trace is
exactly one load job for s1 whose payload is r1 then r2, followed by one
checkpoint emission of v1, and the run returns v1. -/
theorem c3_confirmed :
    mainJob jobP msgsC3 =
      ([Event.loadJob "s1" ["r1", "r2"] simpleCfg, Event.logJobId "s1",
        Event.emitState "v1"],
       Except.ok (some "v1")) := rfl

/-- C6 counterexample: in streaming mode, the insert of r1, issued before
the STATE(v) message, returns a non-empty error list, yet the checkpoint v
is still written (twice) because the later insert of r2 overwrote the
errors entry of the stream — refuting the claim that v is never emitted
while an earlier insert it depends on failed. -/
theorem c6_counterexample :
    mainStream streamPfailR1 msgsC6 =
      ([Event.createDataset, Event.createTable "s",
        Event.insertRows "s" "r1" ["insert error"],
        Event.insertRows "s" "r2" [],
        Event.emitState "v", Event.emitState "v"],
       Except.ok (some "v")) := rfl

/-- C7 counterexample: for a fragment without a direct type whose anyOf
lists a string alternative first and an integer alternative last,
define_schema produces type integer — the last non-null alternative, not
the first one as the claim states. -/
theorem c7_counterexample :
    (defineSchema 1 fieldC7 "f").map SchemaFieldDef.type
        = some (some (TypeVal.s "integer")) ∧
    JSchema.type strField = some (TypeVal.s "string") ∧
    (some (some (TypeVal.s "integer")) : Option (Option TypeVal))
        ≠ some (some (TypeVal.s "string")) :=
  ⟨rfl, rfl, by decide⟩

/-- C5 counterexample: under jobPfailA the load job of stream a fails;
the run raises from the blocking result call, the trace stops at the job
of a and no load job for stream b is ever submitted — refuting the claim
that a failed load does not prevent the loads of the other streams. -/
theorem c5_counterexample :
    mainJob jobPfailA msgsC5 =
      ([Event.loadJob "a" ["ra"] simpleCfg, Event.logJobId "a"],
       Except.error (Err.loadJobFailure "a")) ∧
    ∀ buf cfg, Event.loadJob "b" buf cfg ∉ (mainJob jobPfailA msgsC5).1 := by
  have h : mainJob jobPfailA msgsC5 =
      ([Event.loadJob "a" ["ra"] simpleCfg, Event.logJobId "a"],
       Except.error (Err.loadJobFailure "a")) := rfl
  refine ⟨h, ?_⟩
  rw [h]
  intro buf cfg hmem
  simp only [List.mem_cons, List.not_mem_nil, or_false] at hmem
  rcases hmem with h1 | h1 <;> simp at h1

theorem dlookup_upsert_self {α : Type} (m : List (String × α)) (k : String) (v : α) :
    dlookup (upsert m k v) k = some v := by
  induction m with
  | nil => simp [upsert, dlookup]
  | cons hd tl ih =>
    obtain ⟨k', v'⟩ := hd
    by_cases h : k' = k
    · simp [upsert, h, dlookup]
    · simp [upsert, h, dlookup, ih]

/-- C8: in both modes, a successfully processed RECORD message leaves the
pending checkpoint absent (the state the loop carries is None). -/
theorem c8_confirmed :
    (∀ p st s r, okStateCleared (jobStep p st (Msg.recordMsg s r)) = true) ∧
    (∀ p st s r, okStateClearedS ((streamStep p st (Msg.recordMsg s r)).2) = true) := by
  constructor
  · intro p st s r
    simp only [jobStep]
    split
    · rfl
    · split
      · rfl
      · split
        · rfl
        · rfl
  · intro p st s r
    simp only [streamStep]
    split
    · rfl
    · split
      · rfl
      · split
        · rfl
        · rfl

/-- C2 amended: processing a SCHEMA message in batch mode always succeeds
and replaces the spool of that stream with a fresh empty one — pending
records buffered under the old schema are discarded, not retained. -/
theorem c2_amended_thm (p : JobParams) (st : JobState) (s : String)
    (sch : JSchema) (kp : List String) :
    Except.map (fun st' => dlookup st'.rows s)
        (jobStep p st (Msg.schemaMsg s sch kp)) = Except.ok (some []) := by
  simp only [jobStep, Except.map]
  rw [dlookup_upsert_self]

/-- C1 amended: when the type of a fragment is a (non-empty) list whose
last element is neither object nor array, define_schema takes the last
element as the effective type (with the date-time and number rewrites)
and the mode is NULLABLE exactly when the FIRST element of the list is
null — null elsewhere in the list is ignored — and the lowercase literal
required otherwise. -/
theorem c1_amended_thm (fuel : Nat) (name t0 : String) (rest : List String)
    (anyOf : List JSchema) (props : Option (List (String × JSchema)))
    (items : Option JSchema) (fmt : Option String)
    (h1 : (t0 :: rest).getLastD "" ≠ "object")
    (h2 : (t0 :: rest).getLastD "" ≠ "array") :
    defineSchema (fuel + 1)
        (JSchema.mk (some (TypeVal.l (t0 :: rest))) anyOf props items fmt) name
      = some (SchemaFieldDef.mk name
          (some (TypeVal.s
            (if (t0 :: rest).getLastD "" = "string" ∧ fmt = some "date-time"
             then "timestamp"
             else if (t0 :: rest).getLastD "" = "number" then "FLOAT"
             else (t0 :: rest).getLastD "")))
          (if t0 = "null" then "NULLABLE" else "required") none []) := by
  simp only [defineSchema, anyOfSelect, JSchema.type]
  simp only [defineSchemaTail, JSchema.format, if_neg h1, if_neg h2]

/-- C1 witness: the example of the claim, a type list [null, string],
still translates to mode NULLABLE and type string. -/
theorem c1_amended_witness :
    defineSchema 1 (JSchema.mk (some (TypeVal.l ["null", "string"])) [] none none none) "f"
      = some (SchemaFieldDef.mk "f" (some (TypeVal.s "string")) "NULLABLE" none []) := by
  have h := c1_amended_thm 0 "f" "null" ["string"] [] none none none
    (by decide) (by decide)
  exact h.trans (by rfl)

theorem anyOfFoldCharacterization (alts : List JSchema) (f0 : JSchema)
    (h : ∀ a ∈ alts, a.type ≠ none) :
    alts.foldl
        (fun acc alt =>
          acc.bind fun f =>
            match alt.type with
            | none => none
            | some t => if t = TypeVal.s "null" then some f else some alt)
        (some f0)
      = some ((alts.filter nonNullAlt).getLastD f0) := by
  induction alts generalizing f0 with
  | nil => simp
  | cons a tl ih =>
    have ha := h a (by simp)
    obtain ⟨t, ht⟩ := Option.ne_none_iff_exists'.mp ha
    by_cases hnull : t = TypeVal.s "null"
    · have hf : nonNullAlt a = false := by
        simp [nonNullAlt, ht, hnull]
      simp only [List.foldl_cons, Option.bind_some, ht, if_pos hnull,
        List.filter_cons, hf, Bool.false_eq_true, if_false]
      exact ih f0 (fun b hb => h b (by simp [hb]))
    · have hf : nonNullAlt a = true := by
        simp [nonNullAlt, ht, hnull]
      simp only [List.foldl_cons, Option.bind_some, ht, if_neg hnull,
        List.filter_cons, hf, if_true]
      rw [List.getLastD_cons]
      exact ih a (fun b hb => h b (by simp [hb]))

/-- C7 amended: for a fragment without a direct type, the anyOf loop
selects the LAST non-null alternative (each non-null alternative
overwrites the previous choice), and translation then proceeds exactly as
if that alternative were the fragment itself; the presence of a null
alternative merely re-asserts the NULLABLE default, which the selected
alternative can still override. -/
theorem c7_amended_thm (fuel : Nat) (name : String) (alts : List JSchema)
    (props : Option (List (String × JSchema))) (items : Option JSchema)
    (fmt : Option String)
    (halts : ∀ a ∈ alts, a.type ≠ none)
    (hne : alts.filter nonNullAlt ≠ []) :
    defineSchema fuel (JSchema.mk none alts props items fmt) name
      = defineSchema fuel
          ((alts.filter nonNullAlt).getLastD (JSchema.mk none alts props items fmt))
          name := by
  cases fuel with
  | zero => rfl
  | succ fuel =>
    have hsel1 : anyOfSelect (JSchema.mk none alts props items fmt)
        = some ((alts.filter nonNullAlt).getLastD (JSchema.mk none alts props items fmt)) := by
      simp only [anyOfSelect, JSchema.type, JSchema.anyOf]
      exact anyOfFoldCharacterization alts _ halts
    have hmem : (alts.filter nonNullAlt).getLastD (JSchema.mk none alts props items fmt)
        ∈ alts := by
      have h1 : (alts.filter nonNullAlt).getLastD (JSchema.mk none alts props items fmt)
          ∈ alts.filter nonNullAlt := by
        rw [List.getLastD_eq_getLast?, List.getLast?_eq_getLast_of_ne_nil hne,
          Option.getD_some]
        exact List.getLast_mem hne
      exact (List.mem_filter.mp h1).1
    obtain ⟨t, ht⟩ := Option.ne_none_iff_exists'.mp (halts _ hmem)
    have hsel2 : anyOfSelect
        ((alts.filter nonNullAlt).getLastD (JSchema.mk none alts props items fmt))
        = some ((alts.filter nonNullAlt).getLastD (JSchema.mk none alts props items fmt)) := by
      unfold anyOfSelect
      rw [ht]
    simp only [defineSchema]
    rw [hsel1, hsel2]

/-- C7 witness: at the fragment of the counterexample the amended rule
applies — the last non-null alternative (integer) is translated as if it
were the fragment itself. -/
theorem c7_amended_witness :
    defineSchema 1 fieldC7 "f" = defineSchema 1 intField "f" := by
  have h := c7_amended_thm 1 "f" [strField, intField] none none none
    (by
      intro a ha
      simp only [List.mem_cons, List.not_mem_nil, or_false] at ha
      rcases ha with rfl | rfl
      · simp [strField, JSchema.type]
      · simp [intField, JSchema.type])
    (by
      intro hcontra
      rw [show List.filter nonNullAlt [strField, intField] = [strField, intField]
        from rfl] at hcontra
      exact List.cons_ne_nil _ _ hcontra)
  exact h.trans (by rfl)

theorem dlookup_upsert_ne {α : Type} (m : List (String × α)) {k' k : String} (v : α)
    (h : k' ≠ k) : dlookup (upsert m k' v) k = dlookup m k := by
  induction m with
  | nil => simp [upsert, dlookup, h]
  | cons hd tl ih =>
    obtain ⟨a, b⟩ := hd
    by_cases ha : a = k'
    · simp [upsert, ha, dlookup, h]
    · simp only [upsert, if_neg ha, dlookup]
      by_cases hk : a = k
      · simp [hk]
      · simp [hk, ih]

theorem mem_upsert {α : Type} {m : List (String × α)} {k : String} {v : α}
    {k' : String} {v' : α} (h : (k', v') ∈ upsert m k v) :
    (k', v') ∈ m ∨ (k' = k ∧ v' = v) := by
  induction m with
  | nil =>
    simp only [upsert, List.mem_singleton, Prod.mk.injEq] at h
    exact Or.inr h
  | cons hd tl ih =>
    obtain ⟨a, b⟩ := hd
    by_cases ha : a = k
    · simp only [upsert, if_pos ha, List.mem_cons, Prod.mk.injEq] at h
      rcases h with h | h
      · exact Or.inr h
      · exact Or.inl (List.mem_cons_of_mem _ h)
    · simp only [upsert, if_neg ha, List.mem_cons] at h
      rcases h with h | h
      · exact Or.inl (List.mem_cons.mpr (Or.inl h))
      · rcases ih h with h2 | h2
        · exact Or.inl (List.mem_cons_of_mem _ h2)
        · exact Or.inr h2

theorem jobStep_ok_schemas_none (p : JobParams) {st : JobState} {m : Msg}
    {st' : JobState} {s : String} (hstep : jobStep p st m = .ok st')
    (hns : ∀ sch kp, m ≠ Msg.schemaMsg s sch kp)
    (hnone : dlookup st.schemas s = none) : dlookup st'.schemas s = none := by
  cases m with
  | recordMsg s' r =>
    simp only [jobStep] at hstep
    split at hstep
    · exact absurd hstep (by simp)
    · split at hstep
      · exact absurd hstep (by simp)
      · split at hstep
        · exact absurd hstep (by simp)
        · injection hstep with h
          subst h
          exact hnone
  | stateMsg v =>
    injection hstep with h
    subst h
    exact hnone
  | schemaMsg s' sch kp =>
    have hne : s' ≠ s := by
      intro hcontra
      exact hns sch kp (by rw [hcontra])
    injection hstep with h
    subst h
    simpa [dlookup_upsert_ne _ _ hne] using hnone
  | activateVersionMsg =>
    injection hstep with h
    subst h
    exact hnone
  | unknownMsg => exact absurd hstep (by simp [jobStep])

theorem processJob_orphan (p : JobParams) (post : List Msg) (s r : String) :
    ∀ (pre : List Msg) (st : JobState),
      (∀ sch kp, Msg.schemaMsg s sch kp ∉ pre) →
      dlookup st.schemas s = none →
      ∃ e, processJob p st (pre ++ Msg.recordMsg s r :: post) = .error e := by
  intro pre
  induction pre with
  | nil =>
    intro st _ hnone
    exact ⟨Err.recordBeforeSchema s, by simp [processJob, jobStep, hnone]⟩
  | cons m tl ih =>
    intro st hns hnone
    rcases hstep : jobStep p st m with e | st'
    · exact ⟨e, by simp [processJob, hstep]⟩
    · have hpres : dlookup st'.schemas s = none :=
        jobStep_ok_schemas_none p hstep
          (fun sch kp hcontra => hns sch kp (by simp [hcontra])) hnone
      obtain ⟨e, he⟩ := ih st' (fun sch kp h => hns sch kp (by simp [h])) hpres
      exact ⟨e, by simp [processJob, hstep, he]⟩

theorem streamStep_events_shape (p : StreamParams) (st : StreamState) (m : Msg) :
    (streamStep p st m).1 = [] ∨
    (∃ s r, m = Msg.recordMsg s r ∧
      (streamStep p st m).1 = [Event.insertRows s r (p.insertErrs s r)]) ∨
    (∃ s sch kp, m = Msg.schemaMsg s sch kp ∧
      (streamStep p st m).1 = [Event.createTable s]) := by
  cases m with
  | recordMsg s r =>
    simp only [streamStep]
    split
    · exact Or.inl rfl
    · split
      · exact Or.inl rfl
      · split
        · exact Or.inr (Or.inl ⟨s, r, rfl, rfl⟩)
        · exact Or.inl rfl
  | stateMsg v => exact Or.inl rfl
  | schemaMsg s sch kp =>
    simp only [streamStep]
    split
    · exact Or.inl rfl
    · exact Or.inr (Or.inr ⟨s, sch, kp, rfl, rfl⟩)
  | activateVersionMsg => exact Or.inl rfl
  | unknownMsg => exact Or.inl rfl

theorem streamStep_no_emit (p : StreamParams) (st : StreamState) (m : Msg) :
    ∀ e ∈ (streamStep p st m).1, isEmitEv e = false := by
  intro e he
  rcases streamStep_events_shape p st m with h | ⟨s, r, _, h⟩ | ⟨s, sch, kp, _, h⟩ <;>
    rw [h] at he
  · exact absurd he (List.not_mem_nil e)
  · rw [List.mem_singleton.mp he]; rfl
  · rw [List.mem_singleton.mp he]; rfl

theorem streamStep_insert_origin (p : StreamParams) (st : StreamState) (m : Msg)
    {t q : String} {errs : List String}
    (h : Event.insertRows t q errs ∈ (streamStep p st m).1) :
    m = Msg.recordMsg t q := by
  rcases streamStep_events_shape p st m with hs | ⟨s, r, hm, hs⟩ | ⟨s, sch, kp, hm, hs⟩ <;>
    rw [hs] at h
  · exact absurd h (List.not_mem_nil _)
  · have h2 := List.mem_singleton.mp h
    injection h2 with h3 h4 h5
    rw [hm, h3, h4]
  · have h2 := List.mem_singleton.mp h
    exact absurd h2 (by simp)

theorem streamLoop_no_emit (p : StreamParams) :
    ∀ (msgs : List Msg) (st : StreamState), ∀ e ∈ (streamLoop p st msgs).1,
      isEmitEv e = false := by
  intro msgs
  induction msgs with
  | nil => intro st e he; exact absurd he (List.not_mem_nil e)
  | cons m rest ih =>
    intro st e he
    rcases hstep : streamStep p st m with ⟨evs, r⟩
    cases r with
    | error e2 =>
      simp only [streamLoop, hstep] at he
      exact streamStep_no_emit p st m e (by rw [hstep]; exact he)
    | ok st' =>
      rcases hloop : streamLoop p st' rest with ⟨evs2, r2⟩
      simp only [streamLoop, hstep, hloop, List.mem_append] at he
      rcases he with he | he
      · exact streamStep_no_emit p st m e (by rw [hstep]; exact he)
      · exact ih st' e (by rw [hloop]; exact he)

theorem streamLoop_insert_origin (p : StreamParams) {t q : String} {errs : List String} :
    ∀ (msgs : List Msg) (st : StreamState),
      Event.insertRows t q errs ∈ (streamLoop p st msgs).1 →
      Msg.recordMsg t q ∈ msgs := by
  intro msgs
  induction msgs with
  | nil => intro st h; exact absurd h (List.not_mem_nil _)
  | cons m rest ih =>
    intro st h
    rcases hstep : streamStep p st m with ⟨evs, r⟩
    cases r with
    | error e2 =>
      simp only [streamLoop, hstep] at h
      have := @streamStep_insert_origin p st m t q errs (by rw [hstep]; exact h)
      rw [this]
      exact List.mem_cons_self _ _
    | ok st' =>
      rcases hloop : streamLoop p st' rest with ⟨evs2, r2⟩
      simp only [streamLoop, hstep, hloop, List.mem_append] at h
      rcases h with h | h
      · have := @streamStep_insert_origin p st m t q errs (by rw [hstep]; exact h)
        rw [this]
        exact List.mem_cons_self _ _
      · exact List.mem_cons_of_mem _ (ih st' (by rw [hloop]; exact h))

theorem streamStep_ok_schemas_none (p : StreamParams) {st : StreamState} {m : Msg}
    {st' : StreamState} {s : String} (hstep : (streamStep p st m).2 = .ok st')
    (hns : ∀ sch kp, m ≠ Msg.schemaMsg s sch kp)
    (hnone : dlookup st.schemas s = none) : dlookup st'.schemas s = none := by
  cases m with
  | recordMsg s' r =>
    simp only [streamStep] at hstep
    split at hstep
    · simp at hstep
    · split at hstep
      · simp at hstep
      · split at hstep
        · injection hstep with h
          subst h
          exact hnone
        · simp at hstep
  | stateMsg v =>
    injection hstep with h
    subst h
    exact hnone
  | schemaMsg s' sch kp =>
    have hne : s' ≠ s := by
      intro hcontra
      exact hns sch kp (by rw [hcontra])
    simp only [streamStep] at hstep
    split at hstep
    · simp at hstep
    · injection hstep with h
      subst h
      simpa [dlookup_upsert_ne _ _ hne] using hnone
  | activateVersionMsg =>
    injection hstep with h
    subst h
    exact hnone
  | unknownMsg => simp [streamStep] at hstep

theorem streamLoop_orphan (p : StreamParams) (post : List Msg) (s r : String) :
    ∀ (pre : List Msg) (st : StreamState),
      (∀ sch kp, Msg.schemaMsg s sch kp ∉ pre) →
      dlookup st.schemas s = none →
      ∃ e, streamLoop p st (pre ++ Msg.recordMsg s r :: post)
        = ((streamLoop p st pre).1, Except.error e) := by
  intro pre
  induction pre with
  | nil =>
    intro st _ hnone
    exact ⟨Err.recordBeforeSchema s, by simp [streamLoop, streamStep, hnone]⟩
  | cons m tl ih =>
    intro st hns hnone
    rcases hstep : streamStep p st m with ⟨evs, r2⟩
    cases r2 with
    | error e2 =>
      exact ⟨e2, by simp [streamLoop, List.cons_append, hstep]⟩
    | ok st' =>
      have hpres : dlookup st'.schemas s = none :=
        streamStep_ok_schemas_none p (by rw [hstep])
          (fun sch kp hcontra => hns sch kp (by simp [hcontra])) hnone
      obtain ⟨e2, he⟩ := ih st' (fun sch kp h => hns sch kp (by simp [h])) hpres
      refine ⟨e2, ?_⟩
      rcases hl : streamLoop p st' tl with ⟨evs2, r3⟩
      have he2 : (streamLoop p st' (tl ++ Msg.recordMsg s r :: post)) = (evs2, Except.error e2) := by
        rw [he, hl]
      simp [streamLoop, List.cons_append, hstep, he2, hl]

theorem countCreate_append (s : String) (l1 l2 : List Event) :
    countCreate s (l1 ++ l2) = countCreate s l1 + countCreate s l2 := by
  simp [countCreate, List.filter_append]

theorem streamStep_ok_create_count (p : StreamParams) {st : StreamState} {m : Msg}
    {st' : StreamState} (s : String) (hstep : (streamStep p st m).2 = .ok st') :
    countCreate s (streamStep p st m).1 = (if isSchemaFor s m then 1 else 0) := by
  cases m with
  | recordMsg s' r =>
    simp only [streamStep]
    split
    · rfl
    · split
      · rfl
      · split
        · simp [countCreate, List.filter, isCreateFor, isSchemaFor]
        · rfl
  | stateMsg v => rfl
  | schemaMsg s' sch kp =>
    rcases hbs : buildSchema p.fuel sch with _ | fs
    · simp [streamStep, hbs] at hstep
    · simp only [streamStep, hbs, countCreate, List.filter, isCreateFor, isSchemaFor]
      by_cases h : s' = s
      · simp [h]
      · simp [h]
  | activateVersionMsg => rfl
  | unknownMsg => rfl

theorem streamLoop_ok_create_count (p : StreamParams) (s : String) :
    ∀ (msgs : List Msg) (st : StreamState) (evs : List Event) (st' : StreamState),
      streamLoop p st msgs = (evs, .ok st') →
      countCreate s evs = countSchemaFor s msgs := by
  intro msgs
  induction msgs with
  | nil =>
    intro st evs st' h
    simp only [streamLoop] at h
    injection h with h1 h2
    rw [← h1]
    rfl
  | cons m rest ih =>
    intro st evs st' h
    rcases hstep : streamStep p st m with ⟨evs1, r⟩
    cases r with
    | error e => simp [streamLoop, hstep] at h
    | ok st1 =>
      rcases hloop : streamLoop p st1 rest with ⟨evs2, r2⟩
      simp only [streamLoop, hstep, hloop] at h
      injection h with h1 h2
      subst h2
      rw [← h1, countCreate_append]
      have hc1 : countCreate s evs1 = (if isSchemaFor s m then 1 else 0) := by
        have := @streamStep_ok_create_count p st m st1 s (by rw [hstep])
        rw [hstep] at this
        exact this
      have hc2 : countCreate s evs2 = countSchemaFor s rest := ih st1 evs2 st' hloop
      rw [hc1, hc2]
      simp only [countSchemaFor, List.filter_cons]
      by_cases h : isSchemaFor s m
      · simp [h]
        omega
      · simp [h]

theorem streamEndLoop_all_emit (state : Option SVal) :
    ∀ (entries : List (String × Option (List String))), ∀ e ∈ (streamEndLoop state entries).1,
      ∃ v, e = Event.emitState v := by
  intro entries
  induction entries with
  | nil => intro e he; exact absurd he (List.not_mem_nil e)
  | cons hd rest ih =>
    obtain ⟨t, err⟩ := hd
    intro e he
    by_cases hf : entryFalsy err
    · rcases hrec : streamEndLoop state rest with ⟨evs, r⟩
      simp only [streamEndLoop, hf, if_true, hrec, List.mem_append] at he
      rcases he with he | he
      · cases state with
        | none => exact absurd he (List.not_mem_nil e)
        | some v =>
          rw [List.mem_singleton.mp he]
          exact ⟨v, rfl⟩
      · exact ih e (by rw [hrec]; exact he)
    · simp only [streamEndLoop, hf] at he
      simp at he

theorem streamEndLoop_ok_replicate (v : SVal) :
    ∀ (entries : List (String × Option (List String))) (evs : List Event),
      streamEndLoop (some v) entries = (evs, .ok ()) →
      evs = List.replicate entries.length (Event.emitState v) := by
  intro entries
  induction entries with
  | nil =>
    intro evs h
    simp only [streamEndLoop] at h
    injection h with h1 h2
    rw [← h1]
    rfl
  | cons hd rest ih =>
    obtain ⟨t, err⟩ := hd
    intro evs h
    by_cases hf : entryFalsy err
    · rcases hrec : streamEndLoop (some v) rest with ⟨evs2, r2⟩
      simp only [streamEndLoop, hf, if_true, hrec] at h
      injection h with h1 h2
      subst h2
      rw [← h1, ih evs2 (by rw [hrec])]
      simp [emitStateEvents, List.replicate_succ]
    · simp only [streamEndLoop, hf] at h
      simp at h

theorem filter_emit_nil {l : List Event} (h : ∀ e ∈ l, isEmitEv e = false) :
    l.filter isEmitEv = [] := by
  induction l with
  | nil => rfl
  | cons hd tl ih =>
    rw [List.filter_cons, if_neg (by simp [h hd (List.mem_cons_self _ _)])]
    exact ih (fun e he => h e (List.mem_cons_of_mem _ he))

theorem filter_emit_replicate (k : Nat) (v : SVal) :
    (List.replicate k (Event.emitState v)).filter isEmitEv
      = List.replicate k (Event.emitState v) := by
  induction k with
  | zero => rfl
  | succ n ih =>
    rw [List.replicate_succ, List.filter_cons, if_pos (by rfl)]
    rw [ih]

theorem jobStep_ne_loadfail (p : JobParams) (st : JobState) (m : Msg) (t : String) :
    jobStep p st m ≠ .error (.loadJobFailure t) := by
  cases m with
  | recordMsg s r =>
    simp only [jobStep]
    split
    · simp
    · split
      · simp
      · split
        · simp
        · simp
  | stateMsg v => simp [jobStep]
  | schemaMsg s sch kp => simp [jobStep]
  | activateVersionMsg => simp [jobStep]
  | unknownMsg => simp [jobStep]

theorem processJob_ne_loadfail (p : JobParams) (t : String) :
    ∀ (msgs : List Msg) (st : JobState),
      processJob p st msgs ≠ .error (.loadJobFailure t) := by
  intro msgs
  induction msgs with
  | nil => intro st; simp [processJob]
  | cons m rest ih =>
    intro st
    rcases hstep : jobStep p st m with e | st'
    · simp only [processJob, hstep]
      intro hcontra
      injection hcontra with h
      exact jobStep_ne_loadfail p st m t (by rw [hstep, h])
    · simp only [processJob, hstep]
      exact ih st'

theorem runLoads_no_emit (p : JobParams) (schemas : List (String × JSchema)) :
    ∀ (entries : List (String × List String)) (v : SVal),
      Event.emitState v ∉ (runLoads p schemas entries).1 := by
  intro entries
  induction entries with
  | nil => intro v; simp [runLoads]
  | cons hd rest ih =>
    obtain ⟨table, buf⟩ := hd
    intro v
    by_cases hb : buf.isEmpty
    · simp only [runLoads, if_pos hb]
      exact ih v
    · rcases hjs : jobLoadSchema p schemas table with _ | slot
      · simp [runLoads, hb, hjs]
      · by_cases hl : p.loadOk table
        · rcases hrec : runLoads p schemas rest with ⟨evs2, r⟩
          have hne := ih v
          rw [hrec] at hne
          simp only [runLoads, hb, if_false, hjs, hl, if_true, hrec]
          intro hcontra
          rcases List.mem_append.mp hcontra with h | h
          · rcases List.mem_cons.mp h with h2 | h2
            · exact absurd h2 (by simp)
            · rcases List.mem_cons.mp h2 with h3 | h3
              · exact absurd h3 (by simp)
              · exact absurd h3 (List.not_mem_nil _)
          · exact hne h
        · simp [runLoads, hb, hjs, hl]

theorem runLoads_failure_suffix (p : JobParams) (schemas : List (String × JSchema))
    (t : String) :
    ∀ (entries : List (String × List String)) (evs : List Event),
      runLoads p schemas entries = (evs, .error (.loadJobFailure t)) →
      ∃ evs0 buf cfg, evs = evs0 ++ [Event.loadJob t buf cfg, Event.logJobId t] := by
  intro entries
  induction entries with
  | nil =>
    intro evs h
    simp only [runLoads] at h
    injection h with h1 h2
    simp at h2
  | cons hd rest ih =>
    obtain ⟨table, buf⟩ := hd
    intro evs h
    by_cases hb : buf.isEmpty
    · rw [runLoads, if_pos hb] at h
      exact ih evs h
    · rcases hjs : jobLoadSchema p schemas table with _ | slot
      · simp only [runLoads, hb, if_false, hjs] at h
        injection h with h1 h2
        injection h2 with h3
        simp at h3
      · by_cases hl : p.loadOk table
        · rcases hrec : runLoads p schemas rest with ⟨evs2, r⟩
          simp only [runLoads, hb, if_false, hjs, hl, if_true, hrec] at h
          injection h with h1 h2
          subst h2
          obtain ⟨evs0, buf2, cfg2, he⟩ := ih evs2 (by rw [hrec])
          refine ⟨Event.loadJob table buf
              ⟨"NEWLINE_DELIMITED_JSON", p.ignore_unknown_fields, p.autodetect_schema, slot,
               (if p.allow_schema_update then
                  ["ALLOW_FIELD_ADDITION", "ALLOW_FIELD_RELAXATION"]
                else []),
               p.truncate⟩ :: Event.logJobId table :: evs0, buf2, cfg2, ?_⟩
          rw [← h1, he]
          simp
        · simp only [runLoads, hb, if_false, hjs, hl, if_false] at h
          injection h with h1 h2
          injection h2 with h3
          injection h3 with h4
          subst h4
          exact ⟨[], buf,
            ⟨"NEWLINE_DELIMITED_JSON", p.ignore_unknown_fields, p.autodetect_schema, slot,
             (if p.allow_schema_update then
                ["ALLOW_FIELD_ADDITION", "ALLOW_FIELD_RELAXATION"]
              else []),
             p.truncate⟩, by rw [← h1]; simp⟩

theorem jobStep_ok_rows_empty (p : JobParams) {st : JobState} {m : Msg}
    {st' : JobState} {s : String} (hstep : jobStep p st m = .ok st')
    (hnr : ∀ r, m ≠ Msg.recordMsg s r)
    (hinv : ∀ b, (s, b) ∈ st.rows → b = []) :
    ∀ b, (s, b) ∈ st'.rows → b = [] := by
  cases m with
  | recordMsg s' r =>
    have hne : s' ≠ s := by
      intro hcontra
      exact hnr r (by rw [hcontra])
    simp only [jobStep] at hstep
    split at hstep
    · simp at hstep
    · split at hstep
      · simp at hstep
      · split at hstep
        · simp at hstep
        · injection hstep with h
          subst h
          intro b hb
          simp only at hb
          rcases mem_upsert hb with h2 | h2
          · exact hinv b h2
          · exact absurd h2.1 (Ne.symm hne)
  | stateMsg v =>
    injection hstep with h
    subst h
    exact hinv
  | schemaMsg s' sch kp =>
    injection hstep with h
    subst h
    intro b hb
    simp only at hb
    rcases mem_upsert hb with h2 | h2
    · exact hinv b h2
    · exact h2.2
  | activateVersionMsg =>
    injection hstep with h
    subst h
    exact hinv
  | unknownMsg => simp [jobStep] at hstep

theorem processJob_ok_rows_empty (p : JobParams) {s : String} :
    ∀ (msgs : List Msg) (st : JobState) (st' : JobState),
      processJob p st msgs = .ok st' →
      (∀ r, Msg.recordMsg s r ∉ msgs) →
      (∀ b, (s, b) ∈ st.rows → b = []) →
      ∀ b, (s, b) ∈ st'.rows → b = [] := by
  intro msgs
  induction msgs with
  | nil =>
    intro st st' h _ hinv
    simp only [processJob] at h
    injection h with h1
    subst h1
    exact hinv
  | cons m rest ih =>
    intro st st' h hnr hinv
    rcases hstep : jobStep p st m with e | st1
    · simp [processJob, hstep] at h
    · simp only [processJob, hstep] at h
      exact ih st1 st' h (fun r hr => hnr r (List.mem_cons_of_mem _ hr))
        (jobStep_ok_rows_empty p hstep
          (fun r hcontra => hnr r (by rw [hcontra]; exact List.mem_cons_self _ _)) hinv)

theorem runLoads_skip (p : JobParams) (schemas : List (String × JSchema)) (s : String) :
    ∀ (entries : List (String × List String)),
      (∀ b, (s, b) ∈ entries → b = []) →
      ∀ buf cfg, Event.loadJob s buf cfg ∉ (runLoads p schemas entries).1 := by
  intro entries
  induction entries with
  | nil => intro _ buf cfg; simp [runLoads]
  | cons hd rest ih =>
    obtain ⟨table, bufT⟩ := hd
    intro hinv buf cfg
    by_cases hb : bufT.isEmpty
    · rw [runLoads, if_pos hb]
      exact ih (fun b hmem => hinv b (List.mem_cons_of_mem _ hmem)) buf cfg
    · have hne : table ≠ s := by
        intro hcontra
        subst hcontra
        exact hb (by rw [hinv bufT (List.mem_cons_self _ _)]; rfl)
      rcases hjs : jobLoadSchema p schemas table with _ | slot
      · simp [runLoads, hb, hjs]
      · by_cases hl : p.loadOk table
        · rcases hrec : runLoads p schemas rest with ⟨evs2, r⟩
          have hrest := ih (fun b hmem => hinv b (List.mem_cons_of_mem _ hmem)) buf cfg
          rw [hrec] at hrest
          simp only [runLoads, hb, if_false, hjs, hl, if_true, hrec]
          intro hcontra
          rcases List.mem_append.mp hcontra with h | h
          · rcases List.mem_cons.mp h with h2 | h2
            · injection h2 with h3
              exact hne h3.symm
            · rcases List.mem_cons.mp h2 with h3 | h3
              · exact absurd h3 (by simp)
              · exact absurd h3 (List.not_mem_nil _)
          · exact hrest h
        · simp only [runLoads, hb, if_false, hjs, hl, if_false]
          intro hcontra
          rcases List.mem_cons.mp hcontra with h | h
          · injection h with h1
            exact hne h1.symm
          · rcases List.mem_cons.mp h with h2 | h2
            · exact absurd h2 (by simp)
            · exact absurd h2 (List.not_mem_nil _)

/-- C4: in both modes, a RECORD message for a stream with no prior SCHEMA
message for that stream makes the run raise; in batch mode the whole
trace is empty (no warehouse I/O at all), in streaming mode the run fails
and no insert of that record is ever performed. -/
theorem c4_confirmed (pJ : JobParams) (pS : StreamParams) (pre post : List Msg)
    (s r : String)
    (h1 : ∀ sch kp, Msg.schemaMsg s sch kp ∉ pre)
    (h2 : ∀ s2, Msg.recordMsg s2 r ∉ pre) :
    (∃ e, mainJob pJ (pre ++ Msg.recordMsg s r :: post) = ([], Except.error e)) ∧
    exOk (mainStream pS (pre ++ Msg.recordMsg s r :: post)).2 = false ∧
    (∀ t errs, Event.insertRows t r errs
      ∉ (mainStream pS (pre ++ Msg.recordMsg s r :: post)).1) := by
  obtain ⟨e, he⟩ := processJob_orphan pJ post s r pre initJobState h1 (by rfl)
  have hbatch : mainJob pJ (pre ++ Msg.recordMsg s r :: post) = ([], Except.error e) := by
    simp [mainJob, persistLinesJob, he]
  obtain ⟨e2, he2⟩ := streamLoop_orphan pS post s r pre initStreamState h1 (by rfl)
  have hstream : mainStream pS (pre ++ Msg.recordMsg s r :: post)
      = (Event.createDataset :: (streamLoop pS initStreamState pre).1,
         Except.error e2) := by
    simp [mainStream, persistLinesStream, persistLinesStreamFull, he2, Except.map]
  refine ⟨⟨e, hbatch⟩, ?_, ?_⟩
  · rw [hstream]
    rfl
  · intro t errs hmem
    rw [hstream] at hmem
    simp only at hmem
    rcases List.mem_cons.mp hmem with h3 | h3
    · exact absurd h3 (by simp)
    · exact h2 t (streamLoop_insert_origin pS pre initStreamState h3)

/-- C4 witness: a single orphan RECORD message aborts both modes with no
batch trace and no insert of the record. -/
theorem c4_witness :
    (∃ e, mainJob jobP ([] ++ Msg.recordMsg "s" "r" :: []) = ([], Except.error e)) ∧
    exOk (mainStream streamP ([] ++ Msg.recordMsg "s" "r" :: [])).2 = false ∧
    (∀ t errs, Event.insertRows t "r" errs
      ∉ (mainStream streamP ([] ++ Msg.recordMsg "s" "r" :: [])).1) :=
  c4_confirmed jobP streamP [] [] "s" "r"
    (fun _ _ h => absurd h (List.not_mem_nil _))
    (fun _ h => absurd h (List.not_mem_nil _))

/-- C5 amended: when a load job fails, the failure surfaces as a raised
error from the blocking result call; the run aborts there — the trace
ends with the submission and job-id log of the failing stream, loads of
streams later in registration order are never submitted, and no
checkpoint is emitted. -/
theorem c5_amended_thm (p : JobParams) (msgs : List Msg) (t : String)
    (h : (mainJob p msgs).2 = Except.error (Err.loadJobFailure t)) :
    (∃ evs0 buf cfg, (mainJob p msgs).1
        = evs0 ++ [Event.loadJob t buf cfg, Event.logJobId t]) ∧
    ∀ v, Event.emitState v ∉ (mainJob p msgs).1 := by
  rcases hpj : processJob p initJobState msgs with e | st
  · have hthis : (mainJob p msgs).2 = Except.error e := by
      simp [mainJob, persistLinesJob, hpj]
    rw [h] at hthis
    injection hthis with h2
    rw [← h2] at hpj
    exact absurd hpj (processJob_ne_loadfail p t msgs initJobState)
  · rcases hrl : runLoads p st.schemas st.rows with ⟨evs, r⟩
    cases r with
    | ok u =>
      cases u
      have hthis : (mainJob p msgs).2 = Except.ok st.state := by
        simp [mainJob, persistLinesJob, hpj, hrl]
      rw [h] at hthis
      exact absurd hthis (by simp)
    | error e =>
      have hmain : mainJob p msgs = (evs, Except.error e) := by
        simp [mainJob, persistLinesJob, hpj, hrl]
      have he : e = Err.loadJobFailure t := by
        rw [hmain] at h
        injection h with h2
      subst he
      constructor
      · obtain ⟨evs0, buf, cfg, hsuffix⟩ :=
          runLoads_failure_suffix p st.schemas t st.rows evs hrl
        exact ⟨evs0, buf, cfg, by rw [hmain]; exact hsuffix⟩
      · intro v hv
        rw [hmain] at hv
        have hne := runLoads_no_emit p st.schemas st.rows v
        rw [hrl] at hne
        exact hne hv

/-- C5 witness: at the two-stream counterexample input the amended claim
holds — the trace ends at the failing job of stream a and no checkpoint
is emitted. -/
theorem c5_amended_witness :
    (∃ evs0 buf cfg, (mainJob jobPfailA msgsC5).1
        = evs0 ++ [Event.loadJob "a" buf cfg, Event.logJobId "a"]) ∧
    ∀ v, Event.emitState v ∉ (mainJob jobPfailA msgsC5).1 :=
  c5_amended_thm jobPfailA msgsC5 "a" (by rfl)

/-- C6 amended: in streaming mode no checkpoint is written while any
insert is outstanding — every emission happens in the end-of-run phase,
after every insert has returned — but a failed insert does not suppress
emission when a later insert for the same stream succeeded: suppression
only consults the most recent insert result of each stream. Formally, the
trace splits into a prefix without emissions followed by a suffix without
inserts. -/
theorem c6_amended_thm (p : StreamParams) (msgs : List Msg) :
    ∃ a b, (mainStream p msgs).1 = a ++ b ∧
      (∀ e ∈ a, isEmitEv e = false) ∧ (∀ e ∈ b, isInsertEv e = false) := by
  rcases hloop : streamLoop p initStreamState msgs with ⟨evs, r⟩
  cases r with
  | error e =>
    refine ⟨Event.createDataset :: evs, [], ?_, ?_, ?_⟩
    · simp [mainStream, persistLinesStream, persistLinesStreamFull, hloop, Except.map]
    · intro ev hev
      rcases List.mem_cons.mp hev with h | h
      · rw [h]; rfl
      · exact streamLoop_no_emit p msgs initStreamState ev (by rw [hloop]; exact h)
    · intro ev hev
      exact absurd hev (List.not_mem_nil _)
  | ok st =>
    rcases hend : streamEndLoop st.state st.errors with ⟨evs2, r2⟩
    have hemits : ∀ e ∈ evs2, isInsertEv e = false := by
      intro ev hev
      obtain ⟨v, hv⟩ := streamEndLoop_all_emit st.state st.errors ev
        (by rw [hend]; exact hev)
      rw [hv]; rfl
    have hloopemit : ∀ e ∈ (Event.createDataset :: evs), isEmitEv e = false := by
      intro ev hev
      rcases List.mem_cons.mp hev with h | h
      · rw [h]; rfl
      · exact streamLoop_no_emit p msgs initStreamState ev (by rw [hloop]; exact h)
    cases r2 with
    | error e2 =>
      refine ⟨Event.createDataset :: evs, evs2, ?_, hloopemit, hemits⟩
      simp [mainStream, persistLinesStream, persistLinesStreamFull, hloop, hend,
        Except.map]
    | ok u =>
      cases u
      refine ⟨Event.createDataset :: evs, evs2 ++ emitStateEvents st.state, ?_,
        hloopemit, ?_⟩
      · simp [mainStream, persistLinesStream, persistLinesStreamFull, hloop, hend,
          Except.map, List.append_assoc]
      · intro ev hev
        rcases List.mem_append.mp hev with h | h
        · exact hemits ev h
        · cases hst : st.state with
          | none =>
            rw [hst] at h
            exact absurd h (List.not_mem_nil _)
          | some v =>
            rw [hst] at h
            rw [List.mem_singleton.mp h]
            rfl

theorem countCreate_cons_dataset (s : String) (l : List Event) :
    countCreate s (Event.createDataset :: l) = countCreate s l := by
  simp [countCreate, List.filter_cons,
    show isCreateFor s Event.createDataset = false from rfl]

theorem countCreate_emitEvents (s : String) (st : Option SVal) :
    countCreate s (emitStateEvents st) = 0 := by
  cases st with
  | none => rfl
  | some v =>
    simp [emitStateEvents, countCreate, List.filter_cons,
      show isCreateFor s (Event.emitState v) = false from rfl]

theorem countCreate_all_emit_zero (s : String) {l : List Event}
    (h : ∀ e ∈ l, ∃ v, e = Event.emitState v) : countCreate s l = 0 := by
  induction l with
  | nil => rfl
  | cons hd tl ih =>
    obtain ⟨v, hv⟩ := h hd (List.mem_cons_self _ _)
    subst hv
    have hrest := ih (fun e he => h e (List.mem_cons_of_mem _ he))
    simpa [countCreate, List.filter_cons,
      show isCreateFor s (Event.emitState v) = false from rfl] using hrest

/-- C9: a stream with a SCHEMA message but no RECORD message gets no load
job in batch mode and no row insert in streaming mode, but in streaming
mode its table is still created, once per SCHEMA message processed (so
once when it has exactly one SCHEMA message and the run succeeds). -/
theorem c9_confirmed (pJ : JobParams) (pS : StreamParams) (msgs : List Msg)
    (s : String) (hrec : ∀ r, Msg.recordMsg s r ∉ msgs) :
    (∀ buf cfg, Event.loadJob s buf cfg ∉ (mainJob pJ msgs).1) ∧
    (∀ r errs, Event.insertRows s r errs ∉ (mainStream pS msgs).1) ∧
    (exOk (mainStream pS msgs).2 = true →
      countCreate s (mainStream pS msgs).1 = countSchemaFor s msgs) := by
  refine ⟨?_, ?_, ?_⟩
  · intro buf cfg
    rcases hpj : processJob pJ initJobState msgs with e | st
    · simp [mainJob, persistLinesJob, hpj]
    · have hinv : ∀ b, (s, b) ∈ st.rows → b = [] :=
        processJob_ok_rows_empty pJ msgs initJobState st hpj hrec
          (fun b hb => absurd hb (List.not_mem_nil _))
      rcases hrl : runLoads pJ st.schemas st.rows with ⟨evs, r⟩
      have hskip := runLoads_skip pJ st.schemas s st.rows hinv buf cfg
      rw [hrl] at hskip
      cases r with
      | error e =>
        have hmain : mainJob pJ msgs = (evs, Except.error e) := by
          simp [mainJob, persistLinesJob, hpj, hrl]
        rw [hmain]
        exact hskip
      | ok u =>
        cases u
        have hmain : mainJob pJ msgs
            = (evs ++ emitStateEvents st.state, Except.ok st.state) := by
          simp [mainJob, persistLinesJob, hpj, hrl]
        rw [hmain]
        intro hcontra
        rcases List.mem_append.mp hcontra with h | h
        · exact hskip h
        · cases hst : st.state with
          | none =>
            rw [hst] at h
            exact absurd h (List.not_mem_nil _)
          | some v =>
            rw [hst] at h
            exact absurd (List.mem_singleton.mp h) (by simp)
  · intro r errs hcontra
    rcases hloop : streamLoop pS initStreamState msgs with ⟨evs, r2⟩
    cases r2 with
    | error e =>
      have hmain : (mainStream pS msgs).1 = Event.createDataset :: evs := by
        simp [mainStream, persistLinesStream, persistLinesStreamFull, hloop,
          Except.map]
      rw [hmain] at hcontra
      rcases List.mem_cons.mp hcontra with h | h
      · exact absurd h (by simp)
      · exact hrec r (streamLoop_insert_origin pS msgs initStreamState
          (by rw [hloop]; exact h))
    | ok st =>
      rcases hend : streamEndLoop st.state st.errors with ⟨evs2, r3⟩
      have hnotin : Event.insertRows s r errs ∉ Event.createDataset :: (evs ++ evs2) := by
        intro h
        rcases List.mem_cons.mp h with h | h
        · exact absurd h (by simp)
        · rcases List.mem_append.mp h with h | h
          · exact hrec r (streamLoop_insert_origin pS msgs initStreamState
              (by rw [hloop]; exact h))
          · obtain ⟨v, hv⟩ := streamEndLoop_all_emit st.state st.errors _
              (by rw [hend]; exact h)
            exact absurd hv (by simp)
      cases r3 with
      | error e2 =>
        have hmain : (mainStream pS msgs).1
            = Event.createDataset :: (evs ++ evs2) := by
          simp [mainStream, persistLinesStream, persistLinesStreamFull, hloop, hend,
            Except.map]
        rw [hmain] at hcontra
        exact hnotin hcontra
      | ok u =>
        cases u
        have hmain : (mainStream pS msgs).1
            = (Event.createDataset :: (evs ++ evs2)) ++ emitStateEvents st.state := by
          simp [mainStream, persistLinesStream, persistLinesStreamFull, hloop, hend,
            Except.map]
        rw [hmain] at hcontra
        rcases List.mem_append.mp hcontra with h | h
        · exact hnotin h
        · cases hst : st.state with
          | none =>
            rw [hst] at h
            exact absurd h (List.not_mem_nil _)
          | some v =>
            rw [hst] at h
            exact absurd (List.mem_singleton.mp h) (by simp)
  · intro hok
    rcases hloop : streamLoop pS initStreamState msgs with ⟨evs, r2⟩
    cases r2 with
    | error e =>
      have hthis : (mainStream pS msgs).2 = Except.error e := by
        simp [mainStream, persistLinesStream, persistLinesStreamFull, hloop,
          Except.map]
      rw [hthis] at hok
      simp [exOk] at hok
    | ok st =>
      rcases hend : streamEndLoop st.state st.errors with ⟨evs2, r3⟩
      cases r3 with
      | error e2 =>
        have hthis : (mainStream pS msgs).2 = Except.error e2 := by
          simp [mainStream, persistLinesStream, persistLinesStreamFull, hloop, hend,
            Except.map]
        rw [hthis] at hok
        simp [exOk] at hok
      | ok u =>
        cases u
        have hmain : (mainStream pS msgs).1
            = (Event.createDataset :: (evs ++ evs2)) ++ emitStateEvents st.state := by
          simp [mainStream, persistLinesStream, persistLinesStreamFull, hloop, hend,
            Except.map]
        have hallemit : ∀ e ∈ evs2, ∃ v, e = Event.emitState v := by
          intro e he
          exact streamEndLoop_all_emit st.state st.errors e (by rw [hend]; exact he)
        rw [hmain, countCreate_append, countCreate_cons_dataset, countCreate_append,
          countCreate_emitEvents, countCreate_all_emit_zero s hallemit,
          streamLoop_ok_create_count pS s msgs initStreamState evs st hloop]
        omega

/-- C9 witness: a single SCHEMA message with no records yields no load
job, no inserts, and exactly one table creation. -/
theorem c9_witness :
    (∀ buf cfg, Event.loadJob "s" buf cfg ∉ (mainJob jobP msgsC9).1) ∧
    (∀ r errs, Event.insertRows "s" r errs ∉ (mainStream streamP msgsC9).1) ∧
    (exOk (mainStream streamP msgsC9).2 = true →
      countCreate "s" (mainStream streamP msgsC9).1 = countSchemaFor "s" msgsC9) :=
  c9_confirmed jobP streamP msgsC9 "s" (by
    intro r h
    simp only [msgsC9, List.mem_singleton] at h
    exact Msg.noConfusion h)

/-- C10: in streaming mode, when the run succeeds with pending state v and
k streams in the errors dict (on success the last insert of each, if any,
returned no errors), the checkpoint v is written k times by the
end-of-run loop and once more by main: k + 1 identical emissions. -/
theorem c10_confirmed (p : StreamParams) (msgs : List Msg) (v : SVal) (k : Nat)
    (h : Except.map (fun st => (st.state, st.errors.length))
        (persistLinesStreamFull p msgs).2 = Except.ok (some v, k)) :
    (mainStream p msgs).1.filter isEmitEv
      = List.replicate (k + 1) (Event.emitState v) := by
  rcases hfull : persistLinesStreamFull p msgs with ⟨evsF, rF⟩
  rw [hfull] at h
  cases rF with
  | error e => simp [Except.map] at h
  | ok st =>
    simp only [Except.map] at h
    injection h with h2
    rw [Prod.mk.injEq] at h2
    obtain ⟨hs, hk⟩ := h2
    rcases hloop : streamLoop p initStreamState msgs with ⟨evs, r2⟩
    cases r2 with
    | error e =>
      simp [persistLinesStreamFull, hloop] at hfull
    | ok st2 =>
      rcases hend : streamEndLoop st2.state st2.errors with ⟨evs2, r3⟩
      cases r3 with
      | error e2 =>
        simp [persistLinesStreamFull, hloop, hend] at hfull
      | ok u =>
        cases u
        simp only [persistLinesStreamFull, hloop, hend] at hfull
        rw [Prod.mk.injEq] at hfull
        obtain ⟨hevs, hst⟩ := hfull
        injection hst with hst2
        subst hst2
        have hmain : (mainStream p msgs).1
            = (Event.createDataset :: (evs ++ evs2)) ++ emitStateEvents st2.state := by
          simp [mainStream, persistLinesStream, persistLinesStreamFull, hloop, hend,
            Except.map]
        have hend2 : streamEndLoop (some v) st2.errors = (evs2, Except.ok ()) := by
          rw [← hs]
          exact hend
        have hrep : evs2 = List.replicate k (Event.emitState v) := by
          have hr := streamEndLoop_ok_replicate v st2.errors evs2 hend2
          rw [hk] at hr
          exact hr
        rw [hmain, hs, List.filter_append, List.filter_cons,
          if_neg (by decide), List.filter_append,
          filter_emit_nil (fun e he => streamLoop_no_emit p msgs initStreamState e
            (by rw [hloop]; exact he)),
          hrep, filter_emit_replicate]
        simp only [emitStateEvents, List.filter_cons, if_pos (by rfl : isEmitEv
          (Event.emitState v) = true), List.filter_nil, List.nil_append]
        rw [← List.replicate_succ']

/-- C10 witness: the two-stream run msgsC10 succeeds with state v and
k = 2 streams, and the checkpoint v is observed exactly three times. -/
theorem c10_witness :
    (mainStream streamP msgsC10).1.filter isEmitEv
      = List.replicate (2 + 1) (Event.emitState "v") :=
  c10_confirmed streamP msgsC10 "v" 2 (by rfl)

end TB
